import Mathlib

/-!
Verification of the path-addressing core of configurate-rs.

The development shallowly embeds the three source files
(`src/node_path.rs`, `src/path/mod.rs`, `src/path/buf.rs`):
Rust `Vec`s and slices become Lean `List`s, fallible operations return
an explicit result type, and the panic of an out-of-bounds `Vec`
assignment or slice index is modelled as an explicit `fault` / `none`
outcome, distinct from the recoverable error value.
-/

/-- Embeds `ConfigurationValueType` from `src/node_path.rs`: the closed
alphabet of four structural node-kind tokens. -/
inductive ConfigurationValueType where
  | List
  | Map
  | Null
  | Scalar
  deriving DecidableEq, Repr

/-- Embeds `NodePathError` from `src/node_path.rs`: the single
recoverable error kind, carrying the requested index and current size. -/
inductive NodePathError where
  | IndexOutOfBounds (value : Nat) (size : Nat)
  deriving DecidableEq, Repr

/-- Embeds `NodePathImpl` from `src/node_path.rs`: an owned vector of
segments. Structure equality coincides with the derived elementwise
`PartialEq` of the source. -/
structure NodePathImpl where
  vec : List ConfigurationValueType
  deriving DecidableEq, Repr

/-- Embeds `NodePathImpl::empty`: `Self { vec: vec![] }`. -/
def NodePathImpl.empty : NodePathImpl := { vec := [] }

/-- Embeds `NodePathImpl::of`: collects the given segments in order. -/
def NodePathImpl.of (path : List ConfigurationValueType) : NodePathImpl :=
  { vec := path }

/-- Embeds `NodePath::get` for `NodePathImpl`: `self.vec.get(index)`,
returning `none` when the index is past the end; never fails. -/
def NodePathImpl.get (p : NodePathImpl) (index : Nat) :
    Option ConfigurationValueType :=
  p.vec.get? index

/-- Embeds `NodePath::size` for `NodePathImpl`: `self.vec.len()`. -/
def NodePathImpl.size (p : NodePathImpl) : Nat := p.vec.length

/-- Embeds `NodePath::to_vec` for `NodePathImpl`: a copy of the segment
vector. -/
def NodePathImpl.to_vec (p : NodePathImpl) : List ConfigurationValueType :=
  p.vec

/-- Embeds `NodePath::with_appended_child` for `NodePathImpl`,
keeping the source's special case: when `self.vec` is empty the result
is the singleton vector, otherwise the vector is cloned and the new
segment pushed at the end. -/
def NodePathImpl.with_appended_child (p : NodePathImpl)
    (child_key : ConfigurationValueType) : NodePathImpl :=
  if p.vec.isEmpty then { vec := [child_key] }
  else { vec := p.vec ++ [child_key] }

/-- Models Rust's `vec[index] = value` (the `IndexMut` assignment used
inside `NodePathImpl::with`): in-place update when `index` is a valid
position, and `none` — a panic — when it is not. -/
def vecIndexAssign (l : List ConfigurationValueType) (i : Nat)
    (v : ConfigurationValueType) : Option (List ConfigurationValueType) :=
  if i < l.length then some (l.set i v) else none

/-- Outcome of `NodePathImpl::with`: a new path, the recoverable
`NodePathError`, or `fault` for the panic of the out-of-bounds vector
assignment. -/
inductive WithResult where
  | ok (path : NodePathImpl)
  | err (e : NodePathError)
  | fault
  deriving DecidableEq, Repr

/-- Embeds `NodePath::with` for `NodePathImpl` (named `withAt` because
`with` is a Lean keyword). The source guards with `index > self.vec.len()`
— strictly greater — and then performs `new_path[index] = value` on a
clone, which panics when `index` equals the length. -/
def NodePathImpl.withAt (p : NodePathImpl) (index : Nat)
    (value : ConfigurationValueType) : WithResult :=
  if index > p.vec.length then
    WithResult.err (NodePathError.IndexOutOfBounds index p.vec.length)
  else
    match vecIndexAssign p.vec index value with
    | some new_path => WithResult.ok { vec := new_path }
    | none => WithResult.fault

/-- Embeds `impl Index<usize> for NodePathImpl`: `&self.vec[index]`.
Slice indexing returns the element when in range and panics otherwise;
the panic is modelled as `none`. -/
def NodePathImpl.indexOp (p : NodePathImpl) (index : Nat) :
    Option ConfigurationValueType :=
  if h : index < p.vec.length then some (p.vec.get ⟨index, h⟩) else none

/-- Embeds `impl Add for NodePathImpl`, keeping the source's branches:
an empty left side returns the right side's vector, an empty right side
returns the left path unchanged, and otherwise the two vectors are
chained left-then-right. -/
def NodePathImpl.add (p : NodePathImpl) (rhs : NodePathImpl) : NodePathImpl :=
  if p.vec.isEmpty then { vec := rhs.to_vec }
  else if rhs.size = 0 then p
  else { vec := p.vec ++ rhs.to_vec }

namespace path

/-- Embeds `NodePath` from `src/path/mod.rs`: the borrowed view over an
ordered sequence of text references; in the embedding the borrowed
`[&str]` slice becomes a list of strings. Structure equality is the
derived elementwise `PartialEq` of the source. -/
structure NodePath where
  paths : List String
  deriving DecidableEq, Repr

/-- Embeds `NodePathBuf` from `src/path/buf.rs`: the owned growable
sequence of text references. -/
structure NodePathBuf where
  paths : List String
  deriving DecidableEq, Repr

/-- Embeds `NodePath::from_slice`: wraps a slice of text references as a
path view (the source's layout-preserving cast adds no content). -/
def NodePath.from_slice (s : List String) : NodePath := { paths := s }

/-- Embeds `NodePath::as_slice`: yields the underlying text references. -/
def NodePath.as_slice (p : NodePath) : List String := p.paths

/-- Embeds `NodePathBuf::from_slice`: a buffer holding a copy of the
given references in order. -/
def NodePathBuf.from_slice (s : List String) : NodePathBuf := { paths := s }

/-- Embeds `NodePath::to_node_path_buf`:
`NodePathBuf::from_slice(&self.paths)`. -/
def NodePath.to_node_path_buf (p : NodePath) : NodePathBuf :=
  NodePathBuf.from_slice p.paths

/-- Embeds `NodePathBuf::new`: the empty buffer. -/
def NodePathBuf.new : NodePathBuf := { paths := [] }

/-- Embeds `NodePathBuf::push`: iterates over the view's segments and
pushes each one, in order, onto the end of the buffer's vector. -/
def NodePathBuf.push (b : NodePathBuf) (node_path : NodePath) : NodePathBuf :=
  { paths := node_path.paths.foldl (fun acc p => acc ++ [p]) b.paths }

/-- Embeds `impl Deref for NodePathBuf`:
`NodePath::from_slice(&self.paths)` — the view over the buffer's own
storage through which every read operation is delegated. -/
def NodePathBuf.deref (b : NodePathBuf) : NodePath :=
  NodePath.from_slice b.paths

/-- A read of `as_slice` on the buffer, which in the source resolves
through `Deref` to `NodePath::as_slice` on the view of its storage. -/
def NodePathBuf.as_slice (b : NodePathBuf) : List String :=
  b.deref.as_slice

end path

/-! ### Helper lemmas on lists -/

theorem list_set_get_same {α : Type} (l : List α) (i : Nat) (v : α)
    (h : i < l.length) : (l.set i v).get? i = some v := by
  induction l generalizing i with
  | nil => simp at h
  | cons a t ih =>
    cases i with
    | zero => rfl
    | succ n =>
      rw [List.length_cons] at h
      exact ih n (Nat.lt_of_succ_lt_succ h)

theorem list_set_get_other {α : Type} (l : List α) (i j : Nat) (v : α)
    (h : j ≠ i) : (l.set i v).get? j = l.get? j := by
  induction l generalizing i j with
  | nil => rfl
  | cons a t ih =>
    cases i with
    | zero =>
      cases j with
      | zero => exact absurd rfl h
      | succ m => rfl
    | succ n =>
      cases j with
      | zero => rfl
      | succ m => exact ih n m (by omega)

theorem list_get_concat_length {α : Type} (l : List α) (a : α) :
    (l ++ [a]).get? l.length = some a := by
  induction l with
  | nil => rfl
  | cons b t ih =>
    rw [List.cons_append, List.length_cons]
    exact ih

theorem list_get_append_left {α : Type} (l l2 : List α) (i : Nat)
    (h : i < l.length) : (l ++ l2).get? i = l.get? i := by
  induction l generalizing i with
  | nil => simp at h
  | cons b t ih =>
    cases i with
    | zero => rfl
    | succ n =>
      rw [List.length_cons] at h
      exact ih n (Nat.lt_of_succ_lt_succ h)

theorem list_get_none_of_le {α : Type} (l : List α) (i : Nat)
    (h : l.length ≤ i) : l.get? i = none := by
  induction l generalizing i with
  | nil => rfl
  | cons a t ih =>
    cases i with
    | zero =>
      rw [List.length_cons] at h
      exact absurd h (by omega)
    | succ n =>
      rw [List.length_cons] at h
      exact ih n (by omega)

theorem list_get_isSome_of_lt {α : Type} (l : List α) (i : Nat)
    (h : i < l.length) : (l.get? i).isSome = true := by
  induction l generalizing i with
  | nil => simp at h
  | cons a t ih =>
    cases i with
    | zero => rfl
    | succ n =>
      rw [List.length_cons] at h
      exact ih n (Nat.lt_of_succ_lt_succ h)

theorem foldl_push_eq_append (l acc : List String) :
    l.foldl (fun a p => a ++ [p]) acc = acc ++ l := by
  induction l generalizing acc with
  | nil => simp
  | cons b t ih =>
    rw [List.foldl_cons, ih]
    simp

/-! ### Normal forms for the typed-path operations -/

theorem with_appended_child_eq (p : NodePathImpl) (s : ConfigurationValueType) :
    p.with_appended_child s = { vec := p.vec ++ [s] } := by
  cases hv : p.vec with
  | nil => simp [NodePathImpl.with_appended_child, hv]
  | cons a t => simp [NodePathImpl.with_appended_child, hv]

theorem add_eq (p q : NodePathImpl) : p.add q = { vec := p.vec ++ q.vec } := by
  cases p with
  | mk pv =>
    cases q with
    | mk qv =>
      cases pv with
      | nil => simp [NodePathImpl.add, NodePathImpl.to_vec]
      | cons a t =>
        cases qv with
        | nil => simp [NodePathImpl.add, NodePathImpl.size, NodePathImpl.to_vec]
        | cons b u =>
          simp [NodePathImpl.add, NodePathImpl.size, NodePathImpl.to_vec]

/-! ### Claim theorems -/

/-- Claim C1. The claim requires every index at or past the end to produce
the recoverable error `IndexOutOfBounds{value: i, size: p.size()}`, never a
fault; in particular `of([Map]).with(1, List)` should return
`IndexOutOfBounds{value: 1, size: 1}`. The source's guard tests
`index > self.vec.len()` — strictly greater — so at `index == size()` the
guard is passed and the subsequent out-of-bounds vector assignment panics.
This theorem evaluates the code at the spec's own concrete scenario: the
result is the fault, not the required error value. -/
theorem C1_with_at_size_faults :
    (NodePathImpl.of [ConfigurationValueType.Map]).withAt 1
      ConfigurationValueType.List = WithResult.fault := by decide

/-- Claim C2: for every typed path and index strictly below its size,
`with` succeeds; the returned path carries the new segment at the replaced
index and the original segment at every other position (the receiver is a
pure value in the embedding, hence unchanged). -/
theorem C2_with_replaces (p : NodePathImpl) (i : Nat)
    (v : ConfigurationValueType) (h : i < p.size) :
    ∃ q : NodePathImpl, p.withAt i v = WithResult.ok q ∧
      q.get i = some v ∧ ∀ j : Nat, j ≠ i → q.get j = p.get j := by
  have hlen : i < p.vec.length := h
  have hng : ¬ i > p.vec.length := by omega
  refine ⟨{ vec := p.vec.set i v }, ?_, ?_, ?_⟩
  · simp [NodePathImpl.withAt, vecIndexAssign, hlen, hng]
  · simpa [NodePathImpl.get] using list_set_get_same p.vec i v hlen
  · intro j hj
    simpa [NodePathImpl.get] using list_set_get_other p.vec i j v hj

theorem C2_with_replaces_witness :
    ∃ q : NodePathImpl,
      (NodePathImpl.of [ConfigurationValueType.Map,
        ConfigurationValueType.Null]).withAt 0
        ConfigurationValueType.List = WithResult.ok q ∧
      q.get 0 = some ConfigurationValueType.List ∧
      ∀ j : Nat, j ≠ 0 → q.get j =
        (NodePathImpl.of [ConfigurationValueType.Map,
          ConfigurationValueType.Null]).get j :=
  C2_with_replaces
    (NodePathImpl.of [ConfigurationValueType.Map, ConfigurationValueType.Null])
    0 ConfigurationValueType.List (by decide)

/-- Claim C3: appending a child yields the path followed by that segment:
the size grows by one, lookup at the old size returns the new segment,
every earlier position is unchanged, and — empty receiver or not — the
result is exactly the old vector with the segment appended, so no
special-casing of the empty path is observable. -/
theorem C3_with_appended_child_spec (p : NodePathImpl)
    (s : ConfigurationValueType) :
    (p.with_appended_child s).size = p.size + 1 ∧
    (p.with_appended_child s).get p.size = some s ∧
    (∀ i : Nat, i < p.size → (p.with_appended_child s).get i = p.get i) ∧
    p.with_appended_child s = { vec := p.vec ++ [s] } := by
  rw [with_appended_child_eq]
  refine ⟨?_, ?_, ?_, rfl⟩
  · simp [NodePathImpl.size]
  · exact list_get_concat_length p.vec s
  · intro i hi
    exact list_get_append_left p.vec [s] i hi

theorem C3_with_appended_child_spec_witness :
    ((NodePathImpl.of [ConfigurationValueType.Map, ConfigurationValueType.List,
        ConfigurationValueType.Scalar]).with_appended_child
        ConfigurationValueType.Null).size =
      (NodePathImpl.of [ConfigurationValueType.Map, ConfigurationValueType.List,
        ConfigurationValueType.Scalar]).size + 1 ∧
    ((NodePathImpl.of [ConfigurationValueType.Map, ConfigurationValueType.List,
        ConfigurationValueType.Scalar]).with_appended_child
        ConfigurationValueType.Null).get
      (NodePathImpl.of [ConfigurationValueType.Map, ConfigurationValueType.List,
        ConfigurationValueType.Scalar]).size = some ConfigurationValueType.Null ∧
    (∀ i : Nat, i < (NodePathImpl.of [ConfigurationValueType.Map,
        ConfigurationValueType.List, ConfigurationValueType.Scalar]).size →
      ((NodePathImpl.of [ConfigurationValueType.Map, ConfigurationValueType.List,
        ConfigurationValueType.Scalar]).with_appended_child
        ConfigurationValueType.Null).get i =
      (NodePathImpl.of [ConfigurationValueType.Map, ConfigurationValueType.List,
        ConfigurationValueType.Scalar]).get i) ∧
    (NodePathImpl.of [ConfigurationValueType.Map, ConfigurationValueType.List,
      ConfigurationValueType.Scalar]).with_appended_child
      ConfigurationValueType.Null =
      { vec := (NodePathImpl.of [ConfigurationValueType.Map,
          ConfigurationValueType.List, ConfigurationValueType.Scalar]).vec ++
        [ConfigurationValueType.Null] } :=
  C3_with_appended_child_spec
    (NodePathImpl.of [ConfigurationValueType.Map, ConfigurationValueType.List,
      ConfigurationValueType.Scalar])
    ConfigurationValueType.Null

/-- Claim C4: typed-path concatenation preserves left-then-right order
(the result vector is the left vector followed by the right one), the
empty path is a two-sided identity, and concatenation is associative. -/
theorem C4_add_monoid (p q r : NodePathImpl) :
    NodePathImpl.empty.add p = p ∧
    p.add NodePathImpl.empty = p ∧
    (p.add q).add r = p.add (q.add r) ∧
    (p.add q).to_vec = p.to_vec ++ q.to_vec := by
  refine ⟨?_, ?_, ?_, ?_⟩
  · simp [add_eq, NodePathImpl.empty]
  · simp [add_eq, NodePathImpl.empty]
  · simp [add_eq]
  · simp [add_eq, NodePathImpl.to_vec]

/-- Claim C5: converting a borrowed string-path view to an owned buffer
and reading the buffer back yields the same segment sequence — the same
length and the same text references in the same order. Independence of
the copy is a memory property outside the embedding; the elementwise
equality is what is stated here. -/
theorem C5_round_trip (v : path.NodePath) :
    v.to_node_path_buf.as_slice = v.as_slice := rfl

/-- Claim C6: `push` appends exactly the view's segments, in order, after
the buffer's existing segments, and pushing the single-segment views
`["a"]`, `["b"]`, `["c"]` onto an empty buffer in that order yields the
slice `["a", "b", "c"]`. -/
theorem C6_push_appends (b : path.NodePathBuf) (v : path.NodePath) :
    (b.push v).as_slice = b.as_slice ++ v.as_slice ∧
    (((path.NodePathBuf.new.push (path.NodePath.from_slice ["a"])).push
        (path.NodePath.from_slice ["b"])).push
        (path.NodePath.from_slice ["c"])).as_slice = ["a", "b", "c"] := by
  constructor
  · simp [path.NodePathBuf.push, path.NodePathBuf.as_slice,
      path.NodePathBuf.deref, path.NodePath.as_slice,
      path.NodePath.from_slice, foldl_push_eq_append]
  · rfl

/-- Claim C7: construction and lookup agree — the empty path has size 0,
`of` preserves the length and every element of its input, `get` returns
the segment whenever the index is in range, and returns `none` (absent,
not a failure) whenever the index is at or past the size. -/
theorem C7_construction_lookup (v : List ConfigurationValueType)
    (p : NodePathImpl) (i : Nat) :
    NodePathImpl.empty.size = 0 ∧
    (NodePathImpl.of v).size = v.length ∧
    (NodePathImpl.of v).get i = v.get? i ∧
    (i < p.size → (p.get i).isSome = true) ∧
    (p.size ≤ i → p.get i = none) := by
  refine ⟨rfl, rfl, rfl, ?_, ?_⟩
  · intro h
    exact list_get_isSome_of_lt p.vec i h
  · intro h
    exact list_get_none_of_le p.vec i h

theorem C7_construction_lookup_witness :
    NodePathImpl.empty.size = 0 ∧
    (NodePathImpl.of [ConfigurationValueType.Scalar,
      ConfigurationValueType.Null]).size =
      [ConfigurationValueType.Scalar, ConfigurationValueType.Null].length ∧
    (NodePathImpl.of [ConfigurationValueType.Scalar,
      ConfigurationValueType.Null]).get 1 =
      [ConfigurationValueType.Scalar, ConfigurationValueType.Null].get? 1 ∧
    (1 < (NodePathImpl.of [ConfigurationValueType.List]).size →
      ((NodePathImpl.of [ConfigurationValueType.List]).get 1).isSome = true) ∧
    ((NodePathImpl.of [ConfigurationValueType.List]).size ≤ 1 →
      (NodePathImpl.of [ConfigurationValueType.List]).get 1 = none) :=
  C7_construction_lookup
    [ConfigurationValueType.Scalar, ConfigurationValueType.Null]
    (NodePathImpl.of [ConfigurationValueType.List]) 1

namespace path

/-- Modelled from the spec (for the refinement comparison of claim C8):
the read results the spec requires of the buffer, stated directly on the
buffer's own segment storage — the slice is its storage array, the length
is that array's length, and two buffers compare equal exactly when their
storage is elementwise equal. -/
def NodePathBuf.specAsSlice (b : NodePathBuf) : List String := b.paths

/-- Modelled from the spec (see `NodePathBuf.specAsSlice`): the buffer's
length read, directly on its own storage. -/
def NodePathBuf.specLen (b : NodePathBuf) : Nat := b.paths.length

/-- Modelled from the spec (see `NodePathBuf.specAsSlice`): buffer
equality as elementwise equality of the stored segments. -/
def NodePathBuf.specEq (b c : NodePathBuf) : Prop := b.paths = c.paths

end path

/-- Claim C8: every read on the buffer goes through the view of its own
storage and yields exactly the result the spec assigns to the buffer
directly: the delegated slice, its length, and view equality coincide
with the spec-side slice, length, and elementwise storage equality. -/
theorem C8_buf_delegates_reads (b c : path.NodePathBuf) :
    b.as_slice = b.specAsSlice ∧
    b.deref = path.NodePath.from_slice b.paths ∧
    b.as_slice.length = b.specLen ∧
    (b.deref = c.deref ↔ b.specEq c) := by
  refine ⟨rfl, rfl, rfl, ?_⟩
  simp [path.NodePathBuf.deref, path.NodePath.from_slice,
    path.NodePathBuf.specEq, path.NodePath.mk.injEq]

/-- Claim C9: for every index strictly below the size, the trusted index
operator returns the same segment as `get`; at or past the size it
faults (`none` in the embedding, modelling the slice-indexing panic)
rather than returning a value or a recoverable error. -/
theorem C9_index_trusted (p : NodePathImpl) (i : Nat) :
    (i < p.size → p.indexOp i = p.get i ∧ (p.indexOp i).isSome = true) ∧
    (p.size ≤ i → p.indexOp i = none) := by
  constructor
  · intro h
    have hlen : i < p.vec.length := h
    constructor
    · simp only [NodePathImpl.indexOp, NodePathImpl.get, dif_pos hlen]
      exact (List.get?_eq_get hlen).symm
    · simp [NodePathImpl.indexOp, dif_pos hlen]
  · intro h
    have hlen : ¬ i < p.vec.length := by
      have : p.vec.length ≤ i := h
      omega
    simp [NodePathImpl.indexOp, dif_neg hlen]

theorem C9_index_trusted_witness :
    (0 < (NodePathImpl.of [ConfigurationValueType.Null]).size →
      (NodePathImpl.of [ConfigurationValueType.Null]).indexOp 0 =
        (NodePathImpl.of [ConfigurationValueType.Null]).get 0 ∧
      ((NodePathImpl.of [ConfigurationValueType.Null]).indexOp 0).isSome =
        true) ∧
    ((NodePathImpl.of [ConfigurationValueType.Null]).size ≤ 0 →
      (NodePathImpl.of [ConfigurationValueType.Null]).indexOp 0 = none) :=
  C9_index_trusted (NodePathImpl.of [ConfigurationValueType.Null]) 0

/-- Claim C10: appending a child is concatenation with the singleton path
of that segment — the two results are equal as paths, hence have the same
size and the same segment at every position. -/
theorem C10_append_is_concat_singleton (p : NodePathImpl)
    (s : ConfigurationValueType) :
    p.with_appended_child s = p.add (NodePathImpl.of [s]) := by
  rw [with_appended_child_eq, add_eq]
  rfl
